import Mathlib

set_option maxHeartbeats 1000000

namespace AgentServer

/-! Shallow embedding of the session / permission / interrupt core of
src/server/agent-server.js.  File contents are lists of characters;
the JavaScript string operations used by the completion checks
(split on a header regex, trim, includes, match, startsWith) are
embedded as executable functions on List Char. -/

/-- Whitespace class of the JavaScript regular expressions and of
String.prototype.trim (the ASCII members plus the common Unicode ones). -/
def isWs (c : Char) : Bool :=
  c == ' ' || c == '\t' || c == '\n' || c == '\r' || c == '\x0b' || c == '\x0c' ||
  c == '\u00A0' || c == '\u2028' || c == '\u2029' || c == '\uFEFF'

/-- Embedding of String.prototype.trim: drop whitespace from both ends. -/
def trimChars (l : List Char) : List Char :=
  ((l.dropWhile isWs).reverse.dropWhile isWs).reverse

/-- Embedding of String.prototype.startsWith on character lists. -/
def startsWithL : List Char → List Char → Bool
  | [], _ => true
  | _ :: _, [] => false
  | a :: ps, b :: ls => a == b && startsWithL ps ls

/-- Embedding of String.prototype.includes: substring occurrence. -/
def containsSub (needle : List Char) : List Char → Bool
  | [] => needle.isEmpty
  | c :: rest => startsWithL needle (c :: rest) || containsSub needle rest

/-- Remainder of the text after the first (leftmost) occurrence of `needle`,
or `none` when `needle` does not occur.  This is how `block.match` locates
the literal marker that begins each of the two field regexes. -/
def dropAfterFirst (needle : List Char) : List Char → Option (List Char)
  | [] => if needle.isEmpty then some [] else none
  | c :: rest =>
    if startsWithL needle (c :: rest) then some ((c :: rest).drop needle.length)
    else dropAfterFirst needle rest

/-- Second half of the header regex `##\s+<kw>\s+\d+`: after the keyword,
one or more whitespace characters then one or more digits (both greedy);
returns the remainder after the digit run. -/
def afterKw (r2 : List Char) : Option (List Char) :=
  if (r2.takeWhile isWs).isEmpty then none
  else if ((r2.dropWhile isWs).takeWhile Char.isDigit).isEmpty then none
  else some ((r2.dropWhile isWs).dropWhile Char.isDigit)

/-- After the literal `##`: one or more whitespace characters, the keyword,
then `afterKw`. -/
def afterHash (kw rest : List Char) : Option (List Char) :=
  if (rest.takeWhile isWs).isEmpty then none
  else if startsWithL kw (rest.dropWhile isWs) then
    afterKw ((rest.dropWhile isWs).drop kw.length)
  else none

/-- Match of the block-header regex `##\s+<kw>\s+\d+` at the head of the
text; on success returns the remainder after the matched header. -/
def matchHeader (kw : List Char) : List Char → Option (List Char)
  | a :: b :: rest => if a == '#' && b == '#' then afterHash kw rest else none
  | _ => none

/-- Scanner for String.prototype.split on the header regex: walk the text
left to right, closing a piece at every non-overlapping leftmost match.
The fuel argument only funds termination; `splitHeaders` supplies
`length + 1`, which every run stays strictly below. -/
def splitAux (kw : List Char) : Nat → List Char → List Char → List (List Char)
  | 0, _, acc => [acc.reverse]
  | fuel + 1, l, acc =>
    match matchHeader kw l with
    | some r => acc.reverse :: splitAux kw fuel r []
    | none =>
      match l with
      | [] => [acc.reverse]
      | c :: rest => splitAux kw fuel rest (c :: acc)

/-- Embedding of `content.split(/##\s+Question\s+\d+/)` (and the Action
variant): the list of pieces between header matches, empties included. -/
def splitHeaders (kw l : List Char) : List (List Char) :=
  splitAux kw (l.length + 1) l []

def questionHeaderKw : List Char := "Question".data
def actionHeaderKw : List Char := "Action".data
def questionMarker : List Char := "**QUESTION:**".data
def answerMarker : List Char := "**ANSWER:**".data
def actionMarker : List Char := "**ACTION:**".data
def summaryMarker : List Char := "**SUMMARY:**".data
def placeholderSentinel : List Char := "[Claude, please fill in".data
def actionsPendingSentinel : List Char := "_[Action summary pending]_".data
def placeholderLead : List Char := "_[".data

/-- Embedding of `block.match(/\*\*ANSWER:\*\*\s*([^#-]*)/s)` followed by
`.trim()` of the captured group (same shape for SUMMARY): find the first
occurrence of the literal marker, skip the greedy whitespace run, capture
the greedy run of characters other than `#` and `-`, then trim it. -/
def extractField (marker : List Char) (block : List Char) : Option (List Char) :=
  match dropAfterFirst marker block with
  | none => none
  | some r => some (trimChars ((r.dropWhile isWs).takeWhile (fun c => !(c == '#' || c == '-'))))

/-- Body of the per-block loop of checkQuestionsAnswered: a block is
acceptable when it is blank, lacks the QUESTION marker, or its ANSWER
field exists, has length at least 10, and is not a placeholder. -/
def questionBlockOk (block : List Char) : Bool :=
  if (trimChars block).isEmpty then true
  else if containsSub questionMarker block then
    match extractField answerMarker block with
    | none => false
    | some a =>
      if a.length < 10 then false
      else if containsSub placeholderSentinel a then false
      else if startsWithL placeholderLead a then false
      else true
  else true

/-- Body of the per-block loop of checkActionsCompleted; it has one extra
placeholder sentinel, the pending-summary string. -/
def actionBlockOk (block : List Char) : Bool :=
  if (trimChars block).isEmpty then true
  else if containsSub actionMarker block then
    match extractField summaryMarker block with
    | none => false
    | some a =>
      if a.length < 10 then false
      else if containsSub placeholderSentinel a then false
      else if containsSub actionsPendingSentinel a then false
      else if startsWithL placeholderLead a then false
      else true
  else true

/-- State of the tracking file as the check observes it: absent
(existsSync false), unreadable (readFileSync throws, caught by the
surrounding try), or present with its text. -/
inductive FileState
  | missing
  | unreadable
  | content (text : List Char)
deriving DecidableEq, Repr

/-- Embedding of checkQuestionsAnswered: false for a missing file, false
when the read throws (the catch arm), else every split block must pass. -/
def checkQuestionsAnswered : FileState → Bool
  | .missing => false
  | .unreadable => false
  | .content t => (splitHeaders questionHeaderKw t).all questionBlockOk

/-- Embedding of checkActionsCompleted, identical shape over the Action
header, marker, and SUMMARY field. -/
def checkActionsCompleted : FileState → Bool
  | .missing => false
  | .unreadable => false
  | .content t => (splitHeaders actionHeaderKw t).all actionBlockOk

/-! The session data model.  A Session mirrors the record stored in the
`sessions` map: the fields installed at creation plus the fields the two
workflow starters add later (absent until then, hence Option / false). -/

structure Settings where
  permissions : List (String × Bool)
deriving DecidableEq, Repr

/-- One pending permission entry: the resolver is implicit (resolution is
modeled by the functions below returning the resolved value), the timer is
represented by its registered delay in milliseconds. -/
structure PendingEntry where
  timerDelay : Nat
deriving DecidableEq, Repr

structure Session where
  socket : Option Nat
  settings : Option Settings
  workspace : Option String
  pendingPermissions : List (String × PendingEntry)
  aborted : Bool
  interruptQueue : Option (List (List Char))
  questionsFilePath : Option String
  questionsCompleted : Bool
  actionsFilePath : Option String
  actionsCompleted : Bool
deriving DecidableEq, Repr

/-- The record installed by createSession and by the connection handler's
lazy-create branch: no socket, no settings, empty pending map, fresh
(untriggered) abort controller; the workflow fields are still undefined. -/
def freshSession : Session :=
  { socket := none, settings := none, workspace := none, pendingPermissions := [],
    aborted := false, interruptQueue := none, questionsFilePath := none,
    questionsCompleted := false, actionsFilePath := none, actionsCompleted := false }

/-- The process-wide `sessions` map. -/
abbrev Registry : Type := String → Option Session

def emptyReg : Registry := fun _ => none

def setReg (reg : Registry) (sid : String) (s : Session) : Registry :=
  fun x => if x = sid then some s else reg x

def delReg (reg : Registry) (sid : String) : Registry :=
  fun x => if x = sid then none else reg x

inductive Behavior
  | allow
  | deny
deriving DecidableEq, Repr

structure PermissionResult where
  behavior : Behavior
  updatedInput : Option String
  message : Option String
deriving DecidableEq, Repr

def denyResult (msg : String) : PermissionResult :=
  { behavior := .deny, updatedInput := none, message := some msg }

def sessionClosedDeny : PermissionResult := denyResult "Session closed"

def timeoutDeny : PermissionResult :=
  denyResult "Permission request timed out after 30 seconds"

/-- The permission_request notification sent to the browser socket. -/
structure PermissionRequestMsg where
  requestId : String
  toolName : String
  input : String
deriving DecidableEq, Repr

/-- How a call to canUseTool comes back to the SDK: either resolved
immediately in the same tick, or parked as a pending request (the promise
path) after transmitting the permission_request notification. -/
inductive GateOutcome
  | immediate (result : PermissionResult)
  | awaiting (request : PermissionRequestMsg)
deriving DecidableEq, Repr

/-- Association-list lookup used for `settings.permissions[toolName]`. -/
def lookupKey : List (String × Bool) → String → Option Bool
  | [], _ => none
  | (k, v) :: rest, t => if k = t then some v else lookupKey rest t

/-- Embedding of `session.settings?.permissions?.[toolName]`. -/
def lookupPerm (st : Option Settings) (tool : String) : Option Bool :=
  match st with
  | none => none
  | some s => lookupKey s.permissions tool

def lookupEntry (rid : String) : List (String × PendingEntry) → Option PendingEntry
  | [] => none
  | (k, v) :: rest => if k = rid then some v else lookupEntry rid rest

def containsKey (rid : String) (l : List (String × PendingEntry)) : Bool :=
  l.any (fun p => p.1 == rid)

/-- Map.delete on the pending-permissions map (removes the entry). -/
def eraseKey (rid : String) : List (String × PendingEntry) → List (String × PendingEntry)
  | [] => []
  | (k, v) :: rest => if k = rid then rest else (k, v) :: eraseKey rid rest

/-- Registration of a pending permission request: store the resolver
together with its 30000 ms timeout timer under the fresh request id. -/
def registerPending (s : Session) (rid : String) : Session :=
  { s with pendingPermissions := s.pendingPermissions ++ [(rid, { timerDelay := 30000 })] }

/-- Embedding of canUseTool (the Permission Gate).  `freshId` stands for
the randomUUID drawn on the round-trip path.  Returns the session as left
behind plus how the call comes back. -/
def canUseTool (s? : Option Session) (toolName : String) (input : String)
    (freshId : String) : Option Session × GateOutcome :=
  match s? with
  | none => (none, .immediate (denyResult "Session not found"))
  | some s =>
    match s.socket with
    | none => (some s, .immediate (denyResult "No browser connection"))
    | some _ =>
      if lookupPerm s.settings toolName = some true then
        (some s, .immediate { behavior := .allow, updatedInput := some input, message := none })
      else
        (some (registerPending s freshId), .awaiting { requestId := freshId, toolName := toolName, input := input })

/-- The 30-second timer's callback: delete the entry from the pending map,
then resolve the promise with the timeout denial.  The guard models
clearTimeout: a cleared timer (entry already gone) never fires. -/
def fireTimeout (s : Session) (rid : String) : Session × Option PermissionResult :=
  if containsKey rid s.pendingPermissions then
    ({ s with pendingPermissions := eraseKey rid s.pendingPermissions }, some timeoutDeny)
  else (s, none)

/-- The permission_response arm of handleBrowserMessage: when the id is
pending, clear the timer, resolve with the browser's result, delete the
entry; an unknown id falls through silently. -/
def permissionResponse (s : Session) (rid : String) (r : PermissionResult) :
    Session × Option PermissionResult :=
  if containsKey rid s.pendingPermissions then
    ({ s with pendingPermissions := eraseKey rid s.pendingPermissions }, some r)
  else (s, none)

/-- Embedding of cleanupSession: when the id is live, abort the
controller, clear every pending timer and resolve every pending request
with the session-closed denial, and delete the record.  Returns the new
registry, the resolutions delivered to the parked callers, and whether the
abort signal was triggered. -/
def cleanupSession (reg : Registry) (sid : String) :
    Registry × List (String × PermissionResult) × Bool :=
  match reg sid with
  | none => (reg, [], false)
  | some s =>
    (delReg reg sid, s.pendingPermissions.map (fun p => (p.1, sessionClosedDeny)), true)

/-- Embedding of handleStop: unknown session is ignored; otherwise abort
and fall through to cleanupSession (whose own abort is idempotent). -/
def handleStop (reg : Registry) (sid : String) :
    Registry × List (String × PermissionResult) × Bool :=
  match reg sid with
  | none => (reg, [], false)
  | some _ => cleanupSession reg sid

/-- Embedding of the wss connection handler: look the session up, create
the fresh record lazily when absent, then attach the socket. -/
def bindSocket (reg : Registry) (sid : String) (sock : Nat) : Registry :=
  match reg sid with
  | none => setReg reg sid { freshSession with socket := some sock }
  | some s => setReg reg sid { s with socket := some sock }

/-- Embedding of handleInterrupt: unknown session is ignored; otherwise
the message is appended to the session's queue, which is created on first
use (the undefined-queue guard). -/
def handleInterrupt (reg : Registry) (sid : String) (m : List Char) : Registry :=
  match reg sid with
  | none => reg
  | some s =>
    setReg reg sid { s with interruptQueue := some ((s.interruptQueue.getD []) ++ [m]) }

/-! Resolution dynamics of one session's permission requests.  The three
code paths that can complete a request (browser response, timer expiry,
session cleanup) plus the registration path are folded into one step
relation whose second component records, in order, every value handed to
a parked caller of canUseTool.  Since the event loop is single threaded,
any interleaving of these paths is a sequence of such steps. -/

inductive GateEvent
  | register (rid : String)
  | response (rid : String) (result : PermissionResult)
  | timerFire (rid : String)
  | cleanup
deriving DecidableEq, Repr

def outcomeHas (out : List (String × PermissionResult)) (rid : String) : Bool :=
  out.any (fun p => p.1 == rid)

/-- One scheduler step.  `register` installs a pending entry under a
fresh randomUUID (modeled by the guard: a UUID never collides with a live
or past id).  `response` is handleBrowserMessage's permission_response
arm: a live entry is resolved with the browser's value and deleted, an
unknown or already-resolved id falls through.  `timerFire` is the timeout
callback; the membership guard models clearTimeout (a cleared timer never
fires).  `cleanup` is cleanupSession on this session. -/
def gateStep (st : Option Session × List (String × PermissionResult)) :
    GateEvent → Option Session × List (String × PermissionResult)
  | .register rid =>
    match st.1 with
    | none => st
    | some s =>
      if containsKey rid s.pendingPermissions || outcomeHas st.2 rid then st
      else (some (registerPending s rid), st.2)
  | .response rid r =>
    match st.1 with
    | none => st
    | some s =>
      if containsKey rid s.pendingPermissions then
        (some { s with pendingPermissions := eraseKey rid s.pendingPermissions },
         st.2 ++ [(rid, r)])
      else st
  | .timerFire rid =>
    match st.1 with
    | none => st
    | some s =>
      if containsKey rid s.pendingPermissions then
        (some { s with pendingPermissions := eraseKey rid s.pendingPermissions },
         st.2 ++ [(rid, timeoutDeny)])
      else st
  | .cleanup =>
    match st.1 with
    | none => st
    | some s => (none, st.2 ++ s.pendingPermissions.map (fun p => (p.1, sessionClosedDeny)))

def gateRun (st : Option Session × List (String × PermissionResult))
    (evs : List GateEvent) : Option Session × List (String × PermissionResult) :=
  evs.foldl gateStep st

/-! The conversation driver (createMessageGenerator).  Each poll tick
observes the tracking files as they stand at that moment; a run is the
generator played against a finite list of tick observations. -/

/-- What one 500 ms poll tick observes of the two tracking files. -/
structure TickEnv where
  qFile : FileState
  aFile : FileState
deriving DecidableEq, Repr

/-- Guard of the questions-workflow completion branch at one tick. -/
def qDoneNow (s : Session) (env : TickEnv) : Bool :=
  s.questionsFilePath.isSome && !s.questionsCompleted && checkQuestionsAnswered env.qFile

/-- Guard of the actions-workflow completion branch at one tick. -/
def aDoneNow (s : Session) (env : TickEnv) : Bool :=
  s.actionsFilePath.isSome && !s.actionsCompleted && checkActionsCompleted env.aFile

/-- The generator's polling loop: per tick, first the loop condition on
the abort signal, then the questions completion branch (mark done and
break), then the actions completion branch, then a single interrupt
dequeue, else idle through the sleep.  Returns the session as left
behind, the user turns emitted, and whether the loop exited (rather than
the observation window closing). -/
def drvRun : Session → List TickEnv → Session × List (List Char) × Bool
  | s, [] => (s, [], false)
  | s, env :: rest =>
    if s.aborted then (s, [], true)
    else if qDoneNow s env then ({ s with questionsCompleted := true }, [], true)
    else if aDoneNow s env then ({ s with actionsCompleted := true }, [], true)
    else
      match s.interruptQueue with
      | some (m :: q) =>
        let r := drvRun { s with interruptQueue := some q } rest
        (r.1, m :: r.2.1, r.2.2)
      | _ => drvRun s rest

/-- Embedding of createMessageGenerator: yield the initial prompt once,
then enter the polling loop. -/
def createMessageGenerator (s : Session) (initialPrompt : List Char)
    (envs : List TickEnv) : Session × List (List Char) × Bool :=
  let r := drvRun s envs
  (r.1, initialPrompt :: r.2.1, r.2.2)

/-! The two canUseTool options passed to query().  The questions workflow
screens the tool name against the managed allow-list before calling the
Permission Gate; the actions workflow hands every tool name straight to
the gate. -/

def managedTools : List String :=
  ["Bash", "Read", "Grep", "Glob", "Write", "Edit", "TodoWrite"]

/-- Whether a callback invocation was denied before the gate or went
through the gate (carrying the gate's result). -/
inductive CallbackStep
  | deniedOutright (message : String)
  | viaGate (result : Option Session × GateOutcome)
deriving DecidableEq, Repr

def CallbackStep.isDeniedOutright : CallbackStep → Bool
  | .deniedOutright _ => true
  | .viaGate _ => false

/-- The canUseTool option of answerQuestionsWithAgent: unmanaged tools
are denied before the gate is consulted. -/
def questionsCanUseTool (s? : Option Session) (toolName : String) (input : String)
    (freshId : String) : CallbackStep :=
  if managedTools.contains toolName then .viaGate (canUseTool s? toolName input freshId)
  else .deniedOutright ("Tool " ++ toolName ++ " is not allowed")

/-- The canUseTool option of completeActionsWithAgent: it forwards every
tool name to the gate without any allow-list screen. -/
def actionsCanUseTool (s? : Option Session) (toolName : String) (input : String)
    (freshId : String) : CallbackStep :=
  .viaGate (canUseTool s? toolName input freshId)

/-! Helper lemmas about the association-list operations of the
pending-permissions map. -/

theorem containsKey_cons (rid k : String) (v : PendingEntry)
    (rest : List (String × PendingEntry)) :
    containsKey rid ((k, v) :: rest) = ((k == rid) || containsKey rid rest) := rfl

theorem containsKey_append_self (rid : String) (l : List (String × PendingEntry))
    (e : PendingEntry) : containsKey rid (l ++ [(rid, e)]) = true := by
  simp [containsKey]

theorem lookupEntry_append_self (rid : String) (l : List (String × PendingEntry))
    (e : PendingEntry) (h : containsKey rid l = false) :
    lookupEntry rid (l ++ [(rid, e)]) = some e := by
  induction l with
  | nil => simp [lookupEntry]
  | cons p rest ih =>
    obtain ⟨k, v⟩ := p
    rw [containsKey_cons, Bool.or_eq_false_iff] at h
    have hk : ¬ k = rid := by simpa using h.1
    simpa [lookupEntry, hk] using ih h.2

theorem eraseKey_append_self (rid : String) (l : List (String × PendingEntry))
    (e : PendingEntry) (h : containsKey rid l = false) :
    eraseKey rid (l ++ [(rid, e)]) = l := by
  induction l with
  | nil => simp [eraseKey]
  | cons p rest ih =>
    obtain ⟨k, v⟩ := p
    rw [containsKey_cons, Bool.or_eq_false_iff] at h
    have hk : ¬ k = rid := by simpa using h.1
    simpa [eraseKey, hk] using ih h.2

/-- C1: when the session's settings mark the tool auto-approved and its
socket is present, canUseTool resolves in the same tick (the `immediate`
outcome) to allow with the input unchanged, and the session is returned
exactly as it was: no pending-permissions entry is added and no timeout
timer is registered. -/
theorem c1_auto_approved_immediate_allow (s : Session) (tool input freshId : String)
    (hsock : s.socket.isSome = true)
    (happr : lookupPerm s.settings tool = some true) :
    canUseTool (some s) tool input freshId =
      (some s, .immediate { behavior := .allow, updatedInput := some input, message := none }) := by
  cases hs : s.socket with
  | none => rw [hs] at hsock; simp at hsock
  | some v => simp [canUseTool, hs, happr]

def witSession : Session :=
  { freshSession with
    socket := some 0,
    settings := some { permissions := [("Read", true), ("Bash", false)] } }

theorem c1_auto_approved_immediate_allow_wit :
    canUseTool (some witSession) "Read" "file.txt" "rid-1" =
      (some witSession,
       .immediate { behavior := .allow, updatedInput := some "file.txt", message := none }) :=
  c1_auto_approved_immediate_allow witSession "Read" "file.txt" "rid-1" (by rfl) (by decide)

/-- C2: a request that is not auto-approved registers a pending entry
whose timer is set to 30000 ms and parks awaiting the browser; if the
timer then fires (no client response arrived, so the entry is still
live), the caller receives the deny with the timeout message and the
pending map no longer contains the request id (indeed the session is
back to its pre-request state). -/
theorem c2_unanswered_request_times_out_to_deny (s : Session) (tool input freshId : String)
    (hsock : s.socket.isSome = true)
    (hnot : ¬ lookupPerm s.settings tool = some true)
    (hfresh : containsKey freshId s.pendingPermissions = false) :
    canUseTool (some s) tool input freshId =
      (some (registerPending s freshId),
       .awaiting { requestId := freshId, toolName := tool, input := input }) ∧
    lookupEntry freshId (registerPending s freshId).pendingPermissions =
      some { timerDelay := 30000 } ∧
    fireTimeout (registerPending s freshId) freshId = (s, some timeoutDeny) ∧
    containsKey freshId (fireTimeout (registerPending s freshId) freshId).1.pendingPermissions
      = false := by
  have hfire : fireTimeout (registerPending s freshId) freshId = (s, some timeoutDeny) := by
    simp [fireTimeout, registerPending, containsKey_append_self,
      eraseKey_append_self freshId s.pendingPermissions _ hfresh]
  refine ⟨?_, ?_, hfire, ?_⟩
  · cases hs : s.socket with
    | none => rw [hs] at hsock; simp at hsock
    | some v => simp [canUseTool, hs, hnot]
  · exact lookupEntry_append_self freshId s.pendingPermissions _ hfresh
  · rw [hfire]; exact hfresh

def witSession2 : Session := { freshSession with socket := some 0 }

theorem c2_unanswered_request_times_out_to_deny_wit :
    canUseTool (some witSession2) "Bash" "ls" "rid-9" =
      (some (registerPending witSession2 "rid-9"),
       .awaiting { requestId := "rid-9", toolName := "Bash", input := "ls" }) ∧
    lookupEntry "rid-9" (registerPending witSession2 "rid-9").pendingPermissions =
      some { timerDelay := 30000 } ∧
    fireTimeout (registerPending witSession2 "rid-9") "rid-9" = (witSession2, some timeoutDeny) ∧
    containsKey "rid-9"
      (fireTimeout (registerPending witSession2 "rid-9") "rid-9").1.pendingPermissions = false :=
  c2_unanswered_request_times_out_to_deny witSession2 "Bash" "ls" "rid-9"
    (by rfl) (by decide) (by rfl)

/-- C9: the connection handler lazily creates a fresh Session record when
none exists for the id; when a record exists it only replaces the socket
reference, leaving the pending-permissions map, interrupt queue,
settings, workspace, abort flag, and both completion slots untouched;
other registry entries are never affected. -/
theorem c9_bindSocket_lazy_create_and_frame :
    (∀ (reg : Registry) sid sock, reg sid = none →
       bindSocket reg sid sock sid = some { freshSession with socket := some sock }) ∧
    (∀ (reg : Registry) sid sock s, reg sid = some s →
       ∃ s', bindSocket reg sid sock sid = some s' ∧ s'.socket = some sock ∧
         s'.pendingPermissions = s.pendingPermissions ∧
         s'.interruptQueue = s.interruptQueue ∧
         s'.settings = s.settings ∧ s'.workspace = s.workspace ∧
         s'.aborted = s.aborted ∧ s'.questionsFilePath = s.questionsFilePath ∧
         s'.questionsCompleted = s.questionsCompleted ∧
         s'.actionsFilePath = s.actionsFilePath ∧
         s'.actionsCompleted = s.actionsCompleted) ∧
    (∀ (reg : Registry) sid sock sid', ¬ sid' = sid →
       bindSocket reg sid sock sid' = reg sid') := by
  refine ⟨?_, ?_, ?_⟩
  · intro reg sid sock h
    simp [bindSocket, h, setReg]
  · intro reg sid sock s h
    refine ⟨{ s with socket := some sock }, ?_, rfl, rfl, rfl, rfl, rfl, rfl, rfl, rfl, rfl, rfl⟩
    simp [bindSocket, h, setReg]
  · intro reg sid sock sid' hne
    cases h : reg sid with
    | none => simp [bindSocket, h, setReg, hne]
    | some s => simp [bindSocket, h, setReg, hne]

def witReg : Registry := setReg emptyReg "s1" witSession

theorem c9_bindSocket_lazy_create_and_frame_wit :
    bindSocket emptyReg "sNew" 5 "sNew" = some { freshSession with socket := some 5 } ∧
    bindSocket witReg "s1" 7 "other" = witReg "other" :=
  ⟨c9_bindSocket_lazy_create_and_frame.1 emptyReg "sNew" 5 rfl,
   c9_bindSocket_lazy_create_and_frame.2.2 witReg "s1" 7 "other" (by decide)⟩

/-- C4 counterexample: at a registry holding one session with one pending
permission request, teardown resolves that request with the message
"Session closed" (capital S), which is not the string "session closed"
the claim states. -/
def cexSession : Session :=
  { freshSession with
    socket := some 0,
    pendingPermissions := [("req-1", { timerDelay := 30000 })] }

def cexReg : Registry := setReg emptyReg "s1" cexSession

theorem c4_session_closed_message_cex :
    (cleanupSession cexReg "s1").2.1 =
      [("req-1", { behavior := .deny, updatedInput := none, message := some "Session closed" })] ∧
    ("Session closed" : String) ≠ "session closed" := by
  exact ⟨rfl, by decide⟩

/-- C4 amended: teardown on a live session triggers the abort signal,
resolves every still-pending permission request to deny with the message
"Session closed" (clearing its timer with it), removes the record from
the registry and touches no other entry; teardown of an unknown or
already-torn-down id is a no-op returning no resolutions and firing no
abort, so a second teardown is observationally the first's no-op. -/
theorem c4_cleanup_denies_pending_and_is_idempotent :
    (∀ (reg : Registry) sid s, reg sid = some s →
       (cleanupSession reg sid).2.2 = true ∧
       (cleanupSession reg sid).1 sid = none ∧
       (cleanupSession reg sid).2.1 =
         s.pendingPermissions.map (fun p => (p.1, sessionClosedDeny)) ∧
       (∀ sid', ¬ sid' = sid → (cleanupSession reg sid).1 sid' = reg sid') ∧
       cleanupSession (cleanupSession reg sid).1 sid = ((cleanupSession reg sid).1, [], false)) ∧
    (∀ (reg : Registry) sid, reg sid = none → cleanupSession reg sid = (reg, [], false)) := by
  have hnone : ∀ (reg : Registry) sid, reg sid = none → cleanupSession reg sid = (reg, [], false) := by
    intro reg sid h
    simp [cleanupSession, h]
  refine ⟨?_, hnone⟩
  intro reg sid s h
  have h1 : cleanupSession reg sid =
      (delReg reg sid, s.pendingPermissions.map (fun p => (p.1, sessionClosedDeny)), true) := by
    simp [cleanupSession, h]
  refine ⟨by rw [h1], ?_, by rw [h1], ?_, ?_⟩
  · rw [h1]; simp [delReg]
  · intro sid' hne
    rw [h1]; simp [delReg, hne]
  · rw [h1]
    exact hnone _ sid (by simp [delReg])

theorem c4_cleanup_denies_pending_and_is_idempotent_wit :
    (cleanupSession cexReg "s1").2.2 = true ∧
    (cleanupSession cexReg "s1").1 "s1" = none ∧
    cleanupSession (cleanupSession cexReg "s1").1 "s1" =
      ((cleanupSession cexReg "s1").1, [], false) := by
  obtain ⟨h1, h2, _, _, h5⟩ :=
    c4_cleanup_denies_pending_and_is_idempotent.1 cexReg "s1" cexSession (by rfl)
  exact ⟨h1, h2, h5⟩

/-- C5 counterexample: "WebFetch" is outside the managed allow-list, yet
in the actions workflow the callback does not deny it outright: it
invokes the Permission Gate, which (with no auto-approval) even registers
a pending round-trip request for it. -/
theorem c5_actions_unmanaged_tool_reaches_gate_cex :
    managedTools.contains "WebFetch" = false ∧
    (actionsCanUseTool (some witSession2) "WebFetch" "q" "rid-5").isDeniedOutright = false ∧
    actionsCanUseTool (some witSession2) "WebFetch" "q" "rid-5" =
      .viaGate (some (registerPending witSession2 "rid-5"),
        .awaiting { requestId := "rid-5", toolName := "WebFetch", input := "q" }) := by
  exact ⟨by decide, rfl, rfl⟩

/-- C5 amended: only the questions workflow screens tool names; there,
any tool outside the managed set is denied outright before the gate. The
actions workflow instead forwards every tool name to the Permission Gate
unscreened. -/
theorem c5_managed_allow_list_questions_only :
    (∀ s? tool input freshId, managedTools.contains tool = false →
       questionsCanUseTool s? tool input freshId =
         .deniedOutright ("Tool " ++ tool ++ " is not allowed")) ∧
    (∀ s? tool input freshId,
       actionsCanUseTool s? tool input freshId =
         .viaGate (canUseTool s? tool input freshId)) := by
  constructor
  · intro s? tool input freshId h
    simp only [questionsCanUseTool]
    rw [h]
    simp
  · intro s? tool input freshId
    rfl

theorem c5_managed_allow_list_questions_only_wit :
    questionsCanUseTool (some witSession2) "WebSearch" "q" "rid-6" =
      .deniedOutright "Tool WebSearch is not allowed" ∧
    actionsCanUseTool (some witSession2) "WebSearch" "q" "rid-6" =
      .viaGate (canUseTool (some witSession2) "WebSearch" "q" "rid-6") :=
  ⟨c5_managed_allow_list_questions_only.1 (some witSession2) "WebSearch" "q" "rid-6" (by decide),
   c5_managed_allow_list_questions_only.2 (some witSession2) "WebSearch" "q" "rid-6"⟩

/-! Lemmas about the polling loop. -/

theorem drvRun_cons (s : Session) (env : TickEnv) (rest : List TickEnv) :
    drvRun s (env :: rest) =
      (if s.aborted then (s, [], true)
       else if qDoneNow s env then ({ s with questionsCompleted := true }, [], true)
       else if aDoneNow s env then ({ s with actionsCompleted := true }, [], true)
       else
         match s.interruptQueue with
         | some (m :: q) =>
           let r := drvRun { s with interruptQueue := some q } rest
           (r.1, m :: r.2.1, r.2.2)
         | _ => drvRun s rest) := rfl

/-- Composition of observation windows: when the loop is still live after
the first window, playing a longer window continues from where it
stopped. -/
theorem drvRun_append_of_running (envs₁ : List TickEnv) :
    ∀ (s s₁ : Session) (out₁ : List (List Char)),
      drvRun s envs₁ = (s₁, out₁, false) → ∀ ys : List TickEnv,
      drvRun s (envs₁ ++ ys) =
        ((drvRun s₁ ys).1, out₁ ++ (drvRun s₁ ys).2.1, (drvRun s₁ ys).2.2) := by
  induction envs₁ with
  | nil =>
    intro s s₁ out₁ h ys
    simp only [drvRun, Prod.mk.injEq] at h
    obtain ⟨rfl, rfl, -⟩ := h
    simp
  | cons env rest ih =>
    intro s s₁ out₁ h ys
    rw [List.cons_append]
    rw [drvRun_cons] at h ⊢
    by_cases hab : s.aborted = true
    · rw [if_pos hab] at h; simp at h
    rw [if_neg hab] at h ⊢
    by_cases hqd : qDoneNow s env = true
    · rw [if_pos hqd] at h; simp at h
    rw [if_neg hqd] at h ⊢
    by_cases had : aDoneNow s env = true
    · rw [if_pos had] at h; simp at h
    rw [if_neg had] at h ⊢
    cases hq : s.interruptQueue with
    | none =>
      rw [hq] at h
      dsimp only at h ⊢
      exact ih s s₁ out₁ h ys
    | some l =>
      cases l with
      | nil =>
        rw [hq] at h
        dsimp only at h ⊢
        exact ih s s₁ out₁ h ys
      | cons m q =>
        rw [hq] at h
        dsimp only at h ⊢
        simp only [Prod.mk.injEq] at h
        obtain ⟨h1, h2, h3⟩ := h
        have hrun : drvRun { s with interruptQueue := some q } rest =
            (s₁, (drvRun { s with interruptQueue := some q } rest).2.1, false) := by
          rw [← h1, ← h3]
        have := ih { s with interruptQueue := some q } s₁
          (drvRun { s with interruptQueue := some q } rest).2.1 hrun ys
        rw [this]
        simp [← h2]

/-- C8: the generator always emits the initial message carrying the full
task text first; and at the first tick at which the relevant completion
check reports done on a still-live, unaborted run, the driver marks that
workflow's completion flag, ends the loop with no further message, and
does not set the abort flag (the resulting session keeps aborted =
false). -/
theorem c8_one_initial_message_and_graceful_completion :
    (∀ (s : Session) (init : List Char) (envs : List TickEnv),
       ∃ rest, (createMessageGenerator s init envs).2.1 = init :: rest) ∧
    (∀ (s : Session) (init : List Char) (envs₁ : List TickEnv) (env : TickEnv)
       (envs₂ : List TickEnv) (s₁ : Session) (out₁ : List (List Char)),
       drvRun s envs₁ = (s₁, out₁, false) →
       s₁.aborted = false → qDoneNow s₁ env = true →
       createMessageGenerator s init (envs₁ ++ env :: envs₂) =
         ({ s₁ with questionsCompleted := true }, init :: out₁, true)) ∧
    (∀ (s : Session) (init : List Char) (envs₁ : List TickEnv) (env : TickEnv)
       (envs₂ : List TickEnv) (s₁ : Session) (out₁ : List (List Char)),
       drvRun s envs₁ = (s₁, out₁, false) →
       s₁.aborted = false → qDoneNow s₁ env = false → aDoneNow s₁ env = true →
       createMessageGenerator s init (envs₁ ++ env :: envs₂) =
         ({ s₁ with actionsCompleted := true }, init :: out₁, true)) := by
  refine ⟨?_, ?_, ?_⟩
  · intro s init envs
    exact ⟨(drvRun s envs).2.1, rfl⟩
  · intro s init envs₁ env envs₂ s₁ out₁ h hab hq
    have hstep : drvRun s₁ (env :: envs₂) = ({ s₁ with questionsCompleted := true }, [], true) := by
      rw [drvRun_cons, hab, hq]
      simp
    have := drvRun_append_of_running envs₁ s s₁ out₁ h (env :: envs₂)
    simp [createMessageGenerator, this, hstep]
  · intro s init envs₁ env envs₂ s₁ out₁ h hab hq ha
    have hstep : drvRun s₁ (env :: envs₂) = ({ s₁ with actionsCompleted := true }, [], true) := by
      rw [drvRun_cons, hab, hq, ha]
      simp
    have := drvRun_append_of_running envs₁ s s₁ out₁ h (env :: envs₂)
    simp [createMessageGenerator, this, hstep]

def witQSession : Session := { freshSession with questionsFilePath := some "/tmp/q.md" }

def witASession : Session := { freshSession with actionsFilePath := some "/tmp/a.md" }

def witTick : TickEnv := { qFile := .content [], aFile := .content [] }

theorem c8_one_initial_message_and_graceful_completion_wit :
    (∃ rest, (createMessageGenerator witQSession "task".data []).2.1 = "task".data :: rest) ∧
    createMessageGenerator witQSession "task".data ([] ++ witTick :: []) =
      ({ witQSession with questionsCompleted := true }, ["task".data], true) ∧
    createMessageGenerator witASession "task".data ([] ++ witTick :: []) =
      ({ witASession with actionsCompleted := true }, ["task".data], true) :=
  ⟨c8_one_initial_message_and_graceful_completion.1 witQSession "task".data [],
   c8_one_initial_message_and_graceful_completion.2.1 witQSession "task".data []
     witTick [] witQSession [] rfl rfl (by decide),
   c8_one_initial_message_and_graceful_completion.2.2 witASession "task".data []
     witTick [] witASession [] rfl rfl (by decide) (by decide)⟩

/-- C6: handleInterrupt appends to the tail of the session's queue
(creating it on first use), and the driver drains a queued backlog in
exactly enqueue order, one message per tick: with both completion slots
off and no abort, a window at least as long as the backlog emits exactly
the backlog in order, leaves the queue empty, and the loop still live. -/
theorem c6_interrupt_fifo_drain :
    (∀ (reg : Registry) sid s m, reg sid = some s →
       (handleInterrupt reg sid m) sid =
         some { s with interruptQueue := some ((s.interruptQueue.getD []) ++ [m]) }) ∧
    (∀ (envs : List TickEnv) (l : List (List Char)) (s : Session),
       s.aborted = false → s.questionsFilePath = none → s.actionsFilePath = none →
       s.interruptQueue = some l → l.length ≤ envs.length →
       (drvRun s envs).2.1 = l ∧ (drvRun s envs).1.interruptQueue = some [] ∧
       (drvRun s envs).2.2 = false) := by
  constructor
  · intro reg sid s m h
    simp [handleInterrupt, h, setReg]
  · intro envs
    induction envs with
    | nil =>
      intro l s hab hqp hap hq hlen
      have : l = [] := List.length_eq_zero.mp (Nat.le_zero.mp hlen)
      subst this
      exact ⟨rfl, hq, rfl⟩
    | cons env rest ih =>
      intro l s hab hqp hap hq hlen
      have hqd : qDoneNow s env = false := by simp [qDoneNow, hqp]
      have had : aDoneNow s env = false := by simp [aDoneNow, hap]
      rw [drvRun_cons]
      rw [if_neg (by simp [hab]), if_neg (by simp [hqd]), if_neg (by simp [had]), hq]
      cases l with
      | nil =>
        dsimp only
        exact ih [] s hab hqp hap hq (by simp)
      | cons m q =>
        dsimp only
        have := ih q { s with interruptQueue := some q } hab hqp hap rfl
          (Nat.le_of_succ_le_succ hlen)
        exact ⟨by rw [this.1], this.2.1, this.2.2⟩

def witQueueSession : Session :=
  { freshSession with interruptQueue := some ["fixA".data, "fixB".data, "fixC".data] }

theorem c6_interrupt_fifo_drain_wit :
    (handleInterrupt witReg "s1" "fixA".data) "s1" =
      some { witSession with interruptQueue := some ["fixA".data] } ∧
    (drvRun witQueueSession [witTick, witTick, witTick]).2.1 =
      ["fixA".data, "fixB".data, "fixC".data] ∧
    (drvRun witQueueSession [witTick, witTick, witTick]).1.interruptQueue = some [] ∧
    (drvRun witQueueSession [witTick, witTick, witTick]).2.2 = false :=
  ⟨c6_interrupt_fifo_drain.1 witReg "s1" witSession "fixA".data (by rfl),
   c6_interrupt_fifo_drain.2 [witTick, witTick, witTick]
     ["fixA".data, "fixB".data, "fixC".data] witQueueSession rfl rfl rfl rfl (by decide)⟩

/-- C10: a readable file none of whose split blocks contains the
work-item marker is reported complete by the corresponding check, even
though it holds no answered or summarized work item. -/
theorem c10_no_marker_blocks_report_complete :
    (∀ t, (∀ b ∈ splitHeaders questionHeaderKw t, containsSub questionMarker b = false) →
       checkQuestionsAnswered (.content t) = true) ∧
    (∀ t, (∀ b ∈ splitHeaders actionHeaderKw t, containsSub actionMarker b = false) →
       checkActionsCompleted (.content t) = true) := by
  constructor
  · intro t h
    simp only [checkQuestionsAnswered, List.all_eq_true]
    intro b hb
    by_cases ht : (trimChars b).isEmpty = true
    · simp [questionBlockOk, ht]
    · simp [questionBlockOk, ht, h b hb]
  · intro t h
    simp only [checkActionsCompleted, List.all_eq_true]
    intro b hb
    by_cases ht : (trimChars b).isEmpty = true
    · simp [actionBlockOk, ht]
    · simp [actionBlockOk, ht, h b hb]

theorem c10_no_marker_blocks_report_complete_wit :
    checkQuestionsAnswered (.content "".data) = true ∧
    checkActionsCompleted (.content "Nothing actionable in this file.".data) = true :=
  ⟨c10_no_marker_blocks_report_complete.1 "".data (by decide),
   c10_no_marker_blocks_report_complete.2 "Nothing actionable in this file.".data (by decide)⟩

/-! Lemmas for the resolution dynamics. -/

theorem containsKey_eq_true_iff (rid : String) (l : List (String × PendingEntry)) :
    containsKey rid l = true ↔ rid ∈ l.map Prod.fst := by
  induction l with
  | nil => simp [containsKey]
  | cons p rest ih =>
    obtain ⟨k, v⟩ := p
    rw [containsKey_cons]
    simp only [List.map_cons, List.mem_cons, Bool.or_eq_true, beq_iff_eq, ih]
    constructor
    · rintro (rfl | hr)
      · exact Or.inl rfl
      · exact Or.inr hr
    · rintro (rfl | hr)
      · exact Or.inl rfl
      · exact Or.inr hr

theorem outcomeHas_eq_true_iff (out : List (String × PermissionResult)) (rid : String) :
    outcomeHas out rid = true ↔ rid ∈ out.map Prod.fst := by
  induction out with
  | nil => simp [outcomeHas]
  | cons p rest ih =>
    obtain ⟨k, v⟩ := p
    simp only [outcomeHas, List.any_cons, List.map_cons, List.mem_cons,
      Bool.or_eq_true, beq_iff_eq] at ih ⊢
    constructor
    · rintro (rfl | hr)
      · exact Or.inl rfl
      · exact Or.inr (ih.mp hr)
    · rintro (rfl | hr)
      · exact Or.inl rfl
      · exact Or.inr (ih.mpr hr)

theorem eraseKey_sublist (rid : String) (l : List (String × PendingEntry)) :
    List.Sublist (eraseKey rid l) l := by
  induction l with
  | nil => simp [eraseKey]
  | cons p rest ih =>
    obtain ⟨k, v⟩ := p
    by_cases hk : k = rid
    · have he : eraseKey rid ((k, v) :: rest) = rest := by simp [eraseKey, hk]
      rw [he]
      exact List.sublist_cons_self (k, v) rest
    · have he : eraseKey rid ((k, v) :: rest) = (k, v) :: eraseKey rid rest := by
        simp [eraseKey, hk]
      rw [he]
      exact List.Sublist.cons₂ (k, v) ih

theorem keys_nodup_eraseKey (rid : String) (l : List (String × PendingEntry))
    (h : (l.map Prod.fst).Nodup) : ((eraseKey rid l).map Prod.fst).Nodup :=
  h.sublist (List.Sublist.map Prod.fst (eraseKey_sublist rid l))

theorem containsKey_eraseKey_of_not (r rid : String) (l : List (String × PendingEntry))
    (h : containsKey r l = false) : containsKey r (eraseKey rid l) = false := by
  cases hc : containsKey r (eraseKey rid l) with
  | false => rfl
  | true =>
    have hr := (containsKey_eq_true_iff r _).mp hc
    have : r ∈ l.map Prod.fst :=
      (List.Sublist.map Prod.fst (eraseKey_sublist rid l)).subset hr
    rw [(containsKey_eq_true_iff r l).mpr this] at h
    exact absurd h (by simp)

theorem containsKey_eraseKey_self (rid : String) (l : List (String × PendingEntry))
    (h : (l.map Prod.fst).Nodup) : containsKey rid (eraseKey rid l) = false := by
  induction l with
  | nil => simp [eraseKey, containsKey]
  | cons p rest ih =>
    obtain ⟨k, v⟩ := p
    simp only [List.map_cons, List.nodup_cons] at h
    by_cases hk : k = rid
    · subst hk
      have he : eraseKey k ((k, v) :: rest) = rest := by simp [eraseKey]
      rw [he]
      cases hc : containsKey k rest with
      | false => rfl
      | true => exact absurd ((containsKey_eq_true_iff k rest).mp hc) h.1
    · have he : eraseKey rid ((k, v) :: rest) = (k, v) :: eraseKey rid rest := by
        simp [eraseKey, hk]
      rw [he, containsKey_cons, ih h.2]
      simp [hk]

/-- Invariant of the resolution dynamics: resolved outcomes have pairwise
distinct request ids, the live pending map has pairwise distinct ids, and
no id is both resolved and still pending. -/
def gateInv (st : Option Session × List (String × PermissionResult)) : Prop :=
  (st.2.map Prod.fst).Nodup ∧
  (∀ s, st.1 = some s →
     (s.pendingPermissions.map Prod.fst).Nodup ∧
     (∀ r, r ∈ st.2.map Prod.fst → containsKey r s.pendingPermissions = false))

/-- The common after-resolution obligation: removing a live id from the
pending map and appending its outcome keeps the invariant. -/
theorem gateInv_after_resolve (s : Session) (out : List (String × PermissionResult))
    (rid : String) (r : PermissionResult)
    (hout : (out.map Prod.fst).Nodup)
    (hpend : (s.pendingPermissions.map Prod.fst).Nodup)
    (hdisj : ∀ x ∈ out.map Prod.fst, containsKey x s.pendingPermissions = false)
    (hg : containsKey rid s.pendingPermissions = true) :
    gateInv (some { s with pendingPermissions := eraseKey rid s.pendingPermissions },
             out ++ [(rid, r)]) := by
  have hridout : rid ∉ out.map Prod.fst := by
    intro hmem
    rw [hdisj rid hmem] at hg
    exact absurd hg (by simp)
  refine ⟨?_, ?_⟩
  · simp only [List.map_append, List.map_cons, List.map_nil]
    exact List.Nodup.append hout (List.nodup_singleton rid)
      (fun a ha hmem => by rw [List.mem_singleton] at hmem; exact hridout (hmem ▸ ha))
  · intro s' hs'
    rw [Option.some.injEq] at hs'
    subst hs'
    refine ⟨keys_nodup_eraseKey rid _ hpend, ?_⟩
    intro r' hr'
    simp only [List.map_append, List.map_cons, List.map_nil, List.mem_append,
      List.mem_singleton] at hr'
    cases hr' with
    | inl hmem => exact containsKey_eraseKey_of_not r' rid _ (hdisj r' hmem)
    | inr heq => exact heq ▸ containsKey_eraseKey_self rid _ hpend

theorem gateStep_preserves_inv (st : Option Session × List (String × PermissionResult))
    (e : GateEvent) (h : gateInv st) : gateInv (gateStep st e) := by
  obtain ⟨s?, out⟩ := st
  obtain ⟨hout, hsess⟩ := h
  cases e with
  | register rid =>
    cases s? with
    | none => exact ⟨hout, hsess⟩
    | some s =>
      obtain ⟨hpend, hdisj⟩ := hsess s rfl
      by_cases hg : (containsKey rid s.pendingPermissions || outcomeHas out rid) = true
      · have hstep : gateStep (some s, out) (.register rid) = (some s, out) := by
          simp [gateStep, hg]
        rw [hstep]
        exact ⟨hout, hsess⟩
      · rw [Bool.or_eq_true, not_or] at hg
        have hg1 : containsKey rid s.pendingPermissions = false := by
          cases hx : containsKey rid s.pendingPermissions with
          | false => rfl
          | true => exact absurd hx hg.1
        have hg2 : outcomeHas out rid = false := by
          cases hx : outcomeHas out rid with
          | false => rfl
          | true => exact absurd hx hg.2
        have hstep : gateStep (some s, out) (.register rid) =
            (some (registerPending s rid), out) := by
          simp [gateStep, hg1, hg2]
        rw [hstep]
        refine ⟨hout, ?_⟩
        intro s' hs'
        rw [Option.some.injEq] at hs'
        subst hs'
        constructor
        · simp only [registerPending, List.map_append, List.map_cons, List.map_nil]
          refine List.Nodup.append hpend (List.nodup_singleton rid) ?_
          intro a ha hmem
          rw [List.mem_singleton] at hmem
          subst hmem
          rw [(containsKey_eq_true_iff a _).mpr ha] at hg1
          exact absurd hg1 (by simp)
        · intro r hr
          have h1 := hdisj r hr
          simp only [registerPending, containsKey, List.any_append, List.any_cons,
            List.any_nil, Bool.or_false]
          rw [show (s.pendingPermissions.any fun p => p.1 == r) = false from h1]
          simp only [Bool.false_or, beq_eq_false_iff_ne]
          intro heq
          subst heq
          rw [(outcomeHas_eq_true_iff out rid).mpr hr] at hg2
          exact absurd hg2 (by simp)
  | response rid r =>
    cases s? with
    | none => exact ⟨hout, hsess⟩
    | some s =>
      obtain ⟨hpend, hdisj⟩ := hsess s rfl
      by_cases hg : containsKey rid s.pendingPermissions = true
      · have hstep : gateStep (some s, out) (.response rid r) =
            (some { s with pendingPermissions := eraseKey rid s.pendingPermissions },
             out ++ [(rid, r)]) := by
          simp [gateStep, hg]
        rw [hstep]
        exact gateInv_after_resolve s out rid r hout hpend hdisj hg
      · have hg' : containsKey rid s.pendingPermissions = false := by
          cases hx : containsKey rid s.pendingPermissions with
          | false => rfl
          | true => exact absurd hx hg
        have hstep : gateStep (some s, out) (.response rid r) = (some s, out) := by
          simp [gateStep, hg']
        rw [hstep]
        exact ⟨hout, hsess⟩
  | timerFire rid =>
    cases s? with
    | none => exact ⟨hout, hsess⟩
    | some s =>
      obtain ⟨hpend, hdisj⟩ := hsess s rfl
      by_cases hg : containsKey rid s.pendingPermissions = true
      · have hstep : gateStep (some s, out) (.timerFire rid) =
            (some { s with pendingPermissions := eraseKey rid s.pendingPermissions },
             out ++ [(rid, timeoutDeny)]) := by
          simp [gateStep, hg]
        rw [hstep]
        exact gateInv_after_resolve s out rid timeoutDeny hout hpend hdisj hg
      · have hg' : containsKey rid s.pendingPermissions = false := by
          cases hx : containsKey rid s.pendingPermissions with
          | false => rfl
          | true => exact absurd hx hg
        have hstep : gateStep (some s, out) (.timerFire rid) = (some s, out) := by
          simp [gateStep, hg']
        rw [hstep]
        exact ⟨hout, hsess⟩
  | cleanup =>
    cases s? with
    | none => exact ⟨hout, hsess⟩
    | some s =>
      obtain ⟨hpend, hdisj⟩ := hsess s rfl
      have hstep : gateStep (some s, out) .cleanup =
          (none, out ++ s.pendingPermissions.map (fun p => (p.1, sessionClosedDeny))) := rfl
      rw [hstep]
      refine ⟨?_, ?_⟩
      · simp only [List.map_append, List.map_map]
        have hmm : (s.pendingPermissions.map
              (Prod.fst ∘ fun p => (p.1, sessionClosedDeny))) =
            s.pendingPermissions.map Prod.fst := by
          simp [Function.comp]
        rw [hmm]
        refine List.Nodup.append hout hpend ?_
        intro a ha hmem
        have h1 := hdisj a ha
        have h2 := (containsKey_eq_true_iff a s.pendingPermissions).mpr hmem
        rw [h1] at h2
        exact absurd h2 (by simp)
      · intro s' hs'
        exact absurd hs' (by simp)

theorem gateRun_preserves_inv (evs : List GateEvent) :
    ∀ st, gateInv st → gateInv (gateRun st evs) := by
  induction evs with
  | nil => intro st h; exact h
  | cons e rest ih => intro st h; exact ih (gateStep st e) (gateStep_preserves_inv st e h)

/-- C3: over any event interleaving of registrations, browser responses,
timer expiries and a cleanup, each request id is resolved at most once
(the delivered-outcomes list never repeats an id, so the single promise
resolution a parked caller observes is the first and only winner), and a
permission_response whose id is unknown or already resolved leaves the
state entirely unchanged and raises no error. -/
theorem c3_single_resolution_per_request :
    (∀ (s0 : Session) (evs : List GateEvent),
       (s0.pendingPermissions.map Prod.fst).Nodup →
       ((gateRun (some s0, []) evs).2.map Prod.fst).Nodup) ∧
    (∀ (st : Option Session × List (String × PermissionResult)) (rid : String)
       (r : PermissionResult),
       (∀ s, st.1 = some s → containsKey rid s.pendingPermissions = false) →
       gateStep st (.response rid r) = st) := by
  constructor
  · intro s0 evs h0
    have hinv : gateInv (some s0, []) := by
      refine ⟨by simp, ?_⟩
      intro s hs
      rw [Option.some.injEq] at hs
      subst hs
      exact ⟨h0, by simp⟩
    exact (gateRun_preserves_inv evs (some s0, []) hinv).1
  · intro st rid r h
    obtain ⟨s?, out⟩ := st
    cases s? with
    | none => rfl
    | some s =>
      have := h s rfl
      simp [gateStep, this]

def witGateEvents : List GateEvent :=
  [.register "r1",
   .response "r1" { behavior := .allow, updatedInput := some "x", message := none },
   .response "r1" { behavior := .deny, updatedInput := none, message := some "late reply" },
   .timerFire "r1", .register "r2", .cleanup]

theorem c3_single_resolution_per_request_wit :
    ((gateRun (some witSession2, []) witGateEvents).2.map Prod.fst).Nodup ∧
    gateStep (some witSession2, []) (.response "unknown-id" timeoutDeny) =
      (some witSession2, []) :=
  ⟨c3_single_resolution_per_request.1 witSession2 witGateEvents (by decide),
   c3_single_resolution_per_request.2 (some witSession2, []) "unknown-id" timeoutDeny
     (by intro s hs; rw [Option.some.injEq] at hs; subst hs; decide)⟩

/-! Lemmas for the completion-check characterization. -/

theorem startsWithL_mem : ∀ (p l : List Char), startsWithL p l = true → ∀ x ∈ p, x ∈ l := by
  intro p
  induction p with
  | nil =>
    intro l h x hx
    simp at hx
  | cons a ps ih =>
    intro l h x hx
    cases l with
    | nil => simp [startsWithL] at h
    | cons b ls =>
      simp only [startsWithL, Bool.and_eq_true, beq_iff_eq] at h
      obtain ⟨rfl, h2⟩ := h
      rcases List.mem_cons.mp hx with rfl | hx'
      · exact List.mem_cons_self _ _
      · exact List.mem_cons_of_mem _ (ih ls h2 x hx')

theorem containsSub_mem (n : List Char) :
    ∀ (l : List Char), containsSub n l = true → ∀ x ∈ n, x ∈ l := by
  intro l
  induction l with
  | nil =>
    intro h x hx
    simp only [containsSub, List.isEmpty_iff] at h
    subst h
    simp at hx
  | cons c rest ih =>
    intro h x hx
    simp only [containsSub, Bool.or_eq_true] at h
    cases h with
    | inl h1 => exact startsWithL_mem n (c :: rest) h1 x hx
    | inr h2 => exact List.mem_cons_of_mem _ (ih h2 x hx)

theorem mem_of_trim_empty (b : List Char) (h : (trimChars b).isEmpty = true) :
    ∀ c ∈ b, isWs c = true := by
  intro c hc
  have h0 : trimChars b = [] := List.isEmpty_iff.mp h
  unfold trimChars at h0
  have h1 : (b.dropWhile isWs).reverse.dropWhile isWs = [] := by
    have := congrArg List.reverse h0
    simpa using this
  rw [List.dropWhile_eq_nil_iff] at h1
  have h3 : ∀ x ∈ b.dropWhile isWs, isWs x = true := by
    intro x hx
    exact h1 x (List.mem_reverse.mpr hx)
  have hsplit : c ∈ b.takeWhile isWs ++ b.dropWhile isWs := by
    rw [List.takeWhile_append_dropWhile]
    exact hc
  rcases List.mem_append.mp hsplit with h4 | h4
  · exact List.mem_takeWhile_imp h4
  · exact h3 c h4

theorem no_marker_of_all_ws (marker b : List Char) (hstar : ∃ c ∈ marker, isWs c = false)
    (h : ∀ c ∈ b, isWs c = true) : containsSub marker b = false := by
  cases hc : containsSub marker b with
  | false => rfl
  | true =>
    obtain ⟨c, hcm, hcw⟩ := hstar
    have := h c (containsSub_mem marker b hc c hcm)
    rw [this] at hcw
    exact absurd hcw (by simp)

/-- The three acceptance checks on the ANSWER field of one block, as the
claim separates them: the field is present, at least 10 characters long
after trimming, and not a placeholder (neither containing the sentinel
string nor led by the placeholder bracket). -/
def questionFieldOk (block : List Char) : Bool :=
  match extractField answerMarker block with
  | none => false
  | some a =>
    decide (10 ≤ a.length) && !containsSub placeholderSentinel a &&
      !startsWithL placeholderLead a

/-- The acceptance checks on the SUMMARY field of one block; the actions
check carries one more configured sentinel, the pending-summary string. -/
def actionFieldOk (block : List Char) : Bool :=
  match extractField summaryMarker block with
  | none => false
  | some a =>
    decide (10 ≤ a.length) && !containsSub placeholderSentinel a &&
      !containsSub actionsPendingSentinel a && !startsWithL placeholderLead a

theorem questionBlockOk_iff (b : List Char) :
    questionBlockOk b = true ↔
      (containsSub questionMarker b = true → questionFieldOk b = true) := by
  by_cases ht : (trimChars b).isEmpty = true
  · have hm : containsSub questionMarker b = false :=
      no_marker_of_all_ws questionMarker b ⟨'*', by decide, by decide⟩ (mem_of_trim_empty b ht)
    simp [questionBlockOk, ht, hm]
  · by_cases hc : containsSub questionMarker b = true
    · cases hf : extractField answerMarker b with
      | none => simp [questionBlockOk, questionFieldOk, ht, hc, hf]
      | some a =>
        simp only [questionBlockOk, questionFieldOk, ht, hc, hf, if_neg, if_pos,
          Bool.false_eq_true, if_false, true_implies]
        cases hP : containsSub placeholderSentinel a <;>
          cases hQ : startsWithL placeholderLead a <;>
          by_cases h1 : a.length < 10 <;>
          simp [h1, hP, hQ] <;> omega
    · have hc' : containsSub questionMarker b = false := by
        cases hx : containsSub questionMarker b with
        | false => rfl
        | true => exact absurd hx hc
      simp [questionBlockOk, ht, hc']

theorem actionBlockOk_iff (b : List Char) :
    actionBlockOk b = true ↔
      (containsSub actionMarker b = true → actionFieldOk b = true) := by
  by_cases ht : (trimChars b).isEmpty = true
  · have hm : containsSub actionMarker b = false :=
      no_marker_of_all_ws actionMarker b ⟨'*', by decide, by decide⟩ (mem_of_trim_empty b ht)
    simp [actionBlockOk, ht, hm]
  · by_cases hc : containsSub actionMarker b = true
    · cases hf : extractField summaryMarker b with
      | none => simp [actionBlockOk, actionFieldOk, ht, hc, hf]
      | some a =>
        simp only [actionBlockOk, actionFieldOk, ht, hc, hf, if_neg, if_pos,
          Bool.false_eq_true, if_false, true_implies]
        cases hP : containsSub placeholderSentinel a <;>
          cases hR : containsSub actionsPendingSentinel a <;>
          cases hQ : startsWithL placeholderLead a <;>
          by_cases h1 : a.length < 10 <;>
          simp [h1, hP, hR, hQ] <;> omega
    · have hc' : containsSub actionMarker b = false := by
        cases hx : containsSub actionMarker b with
        | false => rfl
        | true => exact absurd hx hc
      simp [actionBlockOk, ht, hc']

/-- C7: both completion checks are false on a nonexistent file and false
when the read throws (fail-closed, no exception escapes); on a readable
file they are true exactly when every split block carrying the work-item
marker has its answer/summary field present, at least the minimum length,
and free of both placeholder forms — hence false as soon as any such
block fails any of the three checks. -/
theorem c7_completion_check_fail_closed :
    checkQuestionsAnswered .missing = false ∧
    checkQuestionsAnswered .unreadable = false ∧
    checkActionsCompleted .missing = false ∧
    checkActionsCompleted .unreadable = false ∧
    (∀ t, checkQuestionsAnswered (.content t) = true ↔
       ∀ b ∈ splitHeaders questionHeaderKw t,
         containsSub questionMarker b = true → questionFieldOk b = true) ∧
    (∀ t, checkActionsCompleted (.content t) = true ↔
       ∀ b ∈ splitHeaders actionHeaderKw t,
         containsSub actionMarker b = true → actionFieldOk b = true) := by
  refine ⟨rfl, rfl, rfl, rfl, ?_, ?_⟩
  · intro t
    rw [show checkQuestionsAnswered (.content t) =
        (splitHeaders questionHeaderKw t).all questionBlockOk from rfl, List.all_eq_true]
    constructor
    · intro h b hb
      exact (questionBlockOk_iff b).mp (h b hb)
    · intro h b hb
      exact (questionBlockOk_iff b).mpr (h b hb)
  · intro t
    rw [show checkActionsCompleted (.content t) =
        (splitHeaders actionHeaderKw t).all actionBlockOk from rfl, List.all_eq_true]
    constructor
    · intro h b hb
      exact (actionBlockOk_iff b).mp (h b hb)
    · intro h b hb
      exact (actionBlockOk_iff b).mpr (h b hb)

def witQFile : List Char :=
  "## Question 1\n**QUESTION:** Why is this loop safe?\n**ANSWER:** The index stays below the array length.\n".data

def witAFile : List Char :=
  "## Action 1\n**ACTION:** Rename the helper\n**SUMMARY:** Renamed and updated all call sites.\n".data

theorem c7_completion_check_fail_closed_wit :
    checkQuestionsAnswered FileState.missing = false ∧
    checkQuestionsAnswered (.content witQFile) = true ∧
    checkActionsCompleted (.content witAFile) = true :=
  ⟨c7_completion_check_fail_closed.1,
   (c7_completion_check_fail_closed.2.2.2.2.1 witQFile).mpr (by decide),
   (c7_completion_check_fail_closed.2.2.2.2.2 witAFile).mpr (by decide)⟩

end AgentServer
